import Mathlib

set_option maxHeartbeats 1000000

/-! Shallow embedding of `src/stackexchange.go` (package goseapi), a minimal
Stack Exchange 2.1 API client.  The embedded pieces are the request builder
(parameter serialization `Params.values`, path-template placeholder
substitution `fillPlaceholders`, query encoding and URL assembly in
`Client.Do`), the ID-join utility `JoinIDs`, and the response-envelope
decoder `parseResponse`.  Go strings are modelled as Lean `String`
(a wrapper around `List Char`; the byte-level operations of the source only
ever look for the ASCII bytes of a single code point, so the `Char`-level
scan coincides with Go's byte scan on valid UTF-8), Go `int` as `Int`, and
fallible operations return `Option`. -/

/-- Version is the API version identifier (src line 20). -/
def Version : String := "2.1"

/-- Root is the Stack Exchange API endpoint (src line 17). -/
def Root : String := "https://api.stackexchange.com/" ++ Version

/-- Well-known Stack Exchange sites (src line 24). -/
def StackOverflow : String := "stackoverflow"

/-- Sort orders (src lines 28-35). -/
def SortActivity : String := "activity"

def SortCreationDate : String := "creation"

def SortHot : String := "hot"

def SortWeek : String := "week"

def SortMonth : String := "month"

def SortScore : String := "votes"

/-- API paths (src lines 38-47). -/
def PathAllAnswers : String := "/answers"

def PathAnswers : String := "/answers/{ids}"

def PathAnswerComments : String := "/answers/{ids}/comments"

def PathAllQuestions : String := "/questions"

def PathQuestions : String := "/questions/{ids}"

def PathQuestionAnswers : String := "/questions/{ids}/answers"

def PathQuestionComments : String := "/questions/{ids}/comments"

/-- Params is the common set of arguments that can be sent to an API request
(src lines 50-65).  Go `int` fields are modelled as `Int`. -/
structure Params where
  site : String
  sort : String
  order : String
  page : Int
  pageSize : Int
  filter : String
  tagged : String
  args : List String
deriving DecidableEq

/-- Model of `url.Values` (a Go map from string keys to lists of values).
The builder only ever stores a single value per key (via `url.Values.Set`),
so it is modelled as an association list holding one value per key; Go maps
are unordered and `Encode` sorts the keys, so list order never reaches the
encoded output. -/
abbrev Values := List (String × String)

/-- Model of `url.Values.Set`: replace any existing entry for key `k` by the
single value `v` (map update). -/
def Values.set (vals : Values) (k v : String) : Values :=
  vals.filter (fun q => !(q.1 == k)) ++ [(k, v)]

/-- Lookup of the value stored for key `k` (Go map indexing). -/
def Values.get? (vals : Values) (k : String) : Option String :=
  (vals.find? (fun q => q.1 == k)).map Prod.snd

/-- Params.values (src lines 67-90): serialize the parameter set into
url.Values.  `site` is always set; every other field only when it differs
from its zero value; `page`/`pagesize` are rendered base-10 by
`strconv.Itoa`, modelled by `toString : Int → String`. -/
def Params.values (p : Params) : Values :=
  let vals : Values := [("site", p.site)]
  let vals := if p.sort ≠ "" then Values.set vals "sort" p.sort else vals
  let vals := if p.order ≠ "" then Values.set vals "order" p.order else vals
  let vals := if p.page ≠ 0 then Values.set vals "page" (toString p.page) else vals
  let vals := if p.pageSize ≠ 0 then Values.set vals "pagesize" (toString p.pageSize) else vals
  let vals := if p.filter ≠ "" then Values.set vals "filter" p.filter else vals
  if p.tagged ≠ "" then Values.set vals "tagged" p.tagged else vals

/-- UTF-8 byte sequence of one code point, as used by Go strings. -/
def utf8Bytes (n : Nat) : List Nat :=
  if n < 128 then [n]
  else if n < 2048 then [192 + n / 64, 128 + n % 64]
  else if n < 65536 then [224 + n / 4096, 128 + n / 64 % 64, 128 + n % 64]
  else [240 + n / 262144, 128 + n / 4096 % 64, 128 + n / 64 % 64, 128 + n % 64]

/-- Bytes Go's `url.QueryEscape` leaves unescaped: ASCII alphanumerics and
`-` `.` `_` `~`. -/
def isUnreservedByte (b : Nat) : Bool :=
  (48 ≤ b && b ≤ 57) || (65 ≤ b && b ≤ 90) || (97 ≤ b && b ≤ 122) ||
    b == 45 || b == 46 || b == 95 || b == 126

/-- Upper-case hexadecimal digit, as emitted by Go's escaping. -/
def hexDigit (n : Nat) : Char :=
  if n < 10 then Char.ofNat (48 + n) else Char.ofNat (55 + n)

/-- Escape one byte in query-component mode: unreserved bytes stay, a space
becomes `+`, everything else becomes `%XX`. -/
def escapeByte (b : Nat) : List Char :=
  if isUnreservedByte b then [Char.ofNat b]
  else if b == 32 then ['+']
  else ['%', hexDigit (b / 16), hexDigit (b % 16)]

/-- Model of `url.QueryEscape`: escape every UTF-8 byte of the string. -/
def queryEscape (s : String) : String :=
  String.mk (s.toList.flatMap (fun c => (utf8Bytes c.toNat).flatMap escapeByte))

/-- Lexicographic comparison of char lists, the model of Go's bytewise
string comparison (on valid UTF-8, bytewise order agrees with
code-point-lexicographic order). -/
def charListLeb : List Char → List Char → Bool
  | [], _ => true
  | _ :: _, [] => false
  | a :: as, b :: bs => if a = b then charListLeb as bs else decide (a < b)

/-- String comparison as used by `sort.Strings` in `url.Values.Encode`. -/
def strLeb (a b : String) : Bool :=
  charListLeb a.toList b.toList

/-- The sorted key list that `url.Values.Encode` iterates over (Go sorts the
map's keys with `sort.Strings`). -/
def Values.encodeKeys (vals : Values) : List String :=
  List.insertionSort (fun a b => strLeb a b = true) (vals.map Prod.fst)

/-- Model of `url.Values.Encode`: emit `k=v` pairs, keys sorted, each key and
value query-escaped, joined by `&`. -/
def Values.encode (vals : Values) : String :=
  String.intercalate "&"
    ((Values.encodeKeys vals).map
      (fun k => queryEscape k ++ "=" ++ queryEscape ((Values.get? vals k).getD "")))

/-- A Client can make API requests (src lines 101-108).  The `*http.Client`
transport override is outside this repository; it is modelled as an opaque
handle (`Option Nat`, `none` being Go's nil pointer). -/
structure Client where
  client : Option Nat
  root : String
  accessToken : String
  key : String
deriving DecidableEq

/-- The transport a request ends up using: Go's `http.DefaultClient` or a
caller-supplied override. -/
inductive Transport where
  | defaultHTTP : Transport
  | custom (handle : Nat) : Transport
deriving DecidableEq

/-- Choice of transport in Client.Do (src lines 115-118): the default HTTP
client, unless the (non-nil) client carries a non-nil override. -/
def Client.transportOf (c : Option Client) : Transport :=
  match c with
  | some cc =>
    match cc.client with
    | some h => Transport.custom h
    | none => Transport.defaultHTTP
  | none => Transport.defaultHTTP

/-- Choice of API root in Client.Do (src lines 119-122): `Root`, unless the
(non-nil) client carries a non-empty root. -/
def Client.rootOf (c : Option Client) : String :=
  match c with
  | some cc => if cc.root ≠ "" then cc.root else Root
  | none => Root

/-- Query parameters of a request (src lines 125-131): the serialized
parameter set, plus `access_token` and `key` when the (non-nil) client
carries non-empty credentials. -/
def Client.valsOf (c : Option Client) (p : Params) : Values :=
  let vals := p.values
  let vals :=
    match c with
    | some cc => if cc.accessToken ≠ "" then Values.set vals "access_token" cc.accessToken else vals
    | none => vals
  match c with
  | some cc => if cc.key ≠ "" then Values.set vals "key" cc.key else vals
  | none => vals

/-- First index holding byte/char `c`, the model of `bytes.IndexByte`
(`none` for Go's -1). -/
def idxOf? (c : Char) : List Char → Option Nat
  | [] => none
  | x :: xs => if x = c then some 0 else (idxOf? c xs).map (· + 1)

/-- The loop of fillPlaceholders (src lines 156-171), with the template `b`,
remaining substitution arguments, and output buffer `buf` explicit.  The Go
loop runs while `argIdx < len(args) && len(b) > 0`, so it is structural
recursion on the argument list. -/
def fillLoop : List (List Char) → List Char → List Char → List Char
  | [], b, buf => buf ++ b
  | a :: rest, b, buf =>
    if b.length = 0 then buf ++ b
    else
      match idxOf? '{' b with
      | none => buf ++ b
      | some i =>
        match idxOf? '}' (b.drop i) with
        | none => (buf ++ b.take i) ++ b.drop i
        | some j => fillLoop rest ((b.drop i).drop (j + 1)) ((buf ++ b.take i) ++ a)

/-- fillPlaceholders (src lines 148-173): substitute `{...}` spans of the
template left-to-right by the arguments, stopping when arguments run out,
no further `\x7b` is found, or the found `\x7b` has no matching `\x7d`;
whatever remains of the template is appended verbatim. -/
def fillPlaceholders (s : String) (args : List String) : String :=
  if s.length = 0 || args.length = 0 then s
  else String.mk (fillLoop (args.map String.toList) s.toList [])

/-- The loop of JoinIDs (src lines 179-184): append a `;` before every ID
except when the buffer is still empty, then the ID base-10
(`strconv.AppendInt`, modelled by `toString : Int → String`). -/
def joinLoop : List Int → String → String
  | [], buf => buf
  | id :: rest, buf =>
    joinLoop rest ((if buf.length > 0 then buf ++ ";" else buf) ++ toString id)

/-- JoinIDs builds a string of semicolon-separated IDs (src lines 176-186). -/
def JoinIDs (ids : List Int) : String :=
  joinLoop ids ""

/-- The request URL built in Client.Do (src line 133):
root ++ substituted path ++ "?" ++ encoded query. -/
def Client.urlOf (c : Option Client) (path : String) (p : Params) : String :=
  Client.rootOf c ++ fillPlaceholders path p.args ++ "?" ++ Values.encode (Client.valsOf c p)

/-- The observable request a call to Client.Do prepares before handing it to
the transport (src lines 113-137; the network call itself and the response
body are outside this component). -/
structure Request where
  url : String
  transport : Transport
deriving DecidableEq

/-- Client.Do up to the transport boundary (src lines 113-137): choose the
transport and root, build the query parameters and the URL.  The Go receiver
`c *Client` may be nil, modelled by `Option Client`. -/
def Client.Do (c : Option Client) (path : String) (p : Params) : Request :=
  { url := Client.urlOf c path p, transport := Client.transportOf c }

/-- DefaultClient uses the default HTTP client and API root: it is the nil
pointer (src line 93). -/
def DefaultClient : Option Client := none

/-- Do performs an API request using the default client (src lines 96-98). -/
def Do (path : String) (p : Params) : Request :=
  Client.Do DefaultClient path p

/-- State-passing reading of Client.Do: Go hands `params *Params` and the
receiver `c *Client` to the builder by pointer, so a mutation of either
would surface here as a changed final state.  The source contains no store
through either pointer, hence both come back as they went in. -/
def Client.DoFrame (c : Option Client) (path : String) (p : Params) :
    Request × Params × Option Client :=
  (Client.Do c path p, p, c)

/-- One pass of the scan that `fillPlaceholders` performs, written after the
specification: decompose the template into a list of
(literal text, complete placeholder span) pairs followed by a trailing
remainder that contains no further complete `\x7b...\x7d` span.  `fuel`
bounds the recursion; `parseTemplate` supplies enough of it. -/
def parseTemplateGo : Nat → List Char → List (List Char × List Char) × List Char
  | 0, t => ([], t)
  | fuel + 1, t =>
    match idxOf? '{' t with
    | none => ([], t)
    | some i =>
      match idxOf? '}' (t.drop i) with
      | none => ([], t)
      | some j =>
        let p := parseTemplateGo fuel ((t.drop i).drop (j + 1))
        ((t.take i, (t.drop i).take (j + 1)) :: p.1, p.2)

/-- Decomposition of a path template into its complete placeholder spans:
`(parseTemplate t).1` lists the (preceding literal, `\x7b...\x7d` span)
pairs in order, `(parseTemplate t).2` is the remainder after the last
complete span. -/
def parseTemplate (t : List Char) : List (List Char × List Char) × List Char :=
  parseTemplateGo t.length t

/-- Written after the specification of placeholder substitution: each
(literal, span) pair contributes its literal followed by the next argument
while arguments remain, and the span itself verbatim once they have run
out; the remainder is always appended verbatim. -/
def renderSubst : List (List Char × List Char) → List Char → List (List Char) → List Char
  | [], tail, _ => tail
  | (lit, span) :: segs, tail, [] => lit ++ span ++ renderSubst segs tail []
  | (lit, _) :: segs, tail, a :: args => lit ++ a ++ renderSubst segs tail args

/-- Written after the specification of JoinIDs: the base-10 representations
of the IDs in order, separated by single `;` characters. -/
def joinIDsSpec : List Int → String
  | [] => ""
  | [id] => toString id
  | id :: id2 :: rest => toString id ++ ";" ++ joinIDsSpec (id2 :: rest)

/-- Tail shape of a partially built `JoinIDs` string: one `;`-prefixed ID
per remaining element. -/
def prefixJoin : List Int → String
  | [] => ""
  | id :: rest => ";" ++ toString id ++ prefixJoin rest

/-- JSON values: the model of a decoded JSON document.  The external
`encoding/json` library is modelled at the value level: a byte stream
either is not a single well-formed JSON document (`none` below) or
denotes one `JValue`.  JSON numbers are modelled as integers, which covers
every numeric field of the envelope. -/
inductive JValue where
  | jnull : JValue
  | jbool (b : Bool) : JValue
  | jnum (n : Int) : JValue
  | jstr (s : String) : JValue
  | jarr (elems : List JValue) : JValue
  | jobj (fields : List (String × JValue)) : JValue

/-- Modelled from the spec: the error descriptor struct (`Error` with fields
ID, Name, Message) is declared in a file of this repository that is not
under src/; `parseResponse` (src lines 209-214) constructs it from the
envelope's `error_id`, `error_name`, `error_message` fields, and spec
section 3 describes it as "an error descriptor (numeric ID, short name,
human message)". -/
structure Error where
  id : Int
  name : String
  message : String
deriving DecidableEq

/-- Modelled from the spec: the envelope metadata struct (`Wrapper`) is
declared in a file of this repository that is not under src/;
`parseResponse` (src lines 209-223) populates exactly these fields, and
spec sections 3 and 6 list the envelope metadata: error descriptor, paging
flags, quota fields, total and type discriminator. -/
structure Wrapper where
  error : Error
  page : Int
  pageSize : Int
  hasMore : Bool
  backoff : Int
  quotaMax : Int
  quotaRemaining : Int
  total : Int
  type' : String
deriving DecidableEq

/-- The zero value of the result struct declared in parseResponse
(src lines 189-206): Go zero-initializes every field. -/
def zeroWrapper : Wrapper :=
  { error := { id := 0, name := "", message := "" }
    page := 0, pageSize := 0, hasMore := false, backoff := 0
    quotaMax := 0, quotaRemaining := 0, total := 0, type' := "" }

/-- Field lookup in a decoded JSON object.  `encoding/json` assigns every
occurrence of a key in document order, so the last occurrence wins. -/
def jLookup (fields : List (String × JValue)) (k : String) : Option JValue :=
  (fields.reverse.find? (fun q => q.1 == k)).map Prod.snd

/-- Assignment of an optional JSON value to an `int` field: an absent key or
JSON null leaves the zero value without error, a number is taken, anything
else leaves the zero value and flags a type mismatch (`false`). -/
def jInt? : Option JValue → Int × Bool
  | none => (0, true)
  | some JValue.jnull => (0, true)
  | some (JValue.jnum n) => (n, true)
  | some _ => (0, false)

/-- Assignment of an optional JSON value to a `string` field. -/
def jStr? : Option JValue → String × Bool
  | none => ("", true)
  | some JValue.jnull => ("", true)
  | some (JValue.jstr s) => (s, true)
  | some _ => ("", false)

/-- Assignment of an optional JSON value to a `bool` field. -/
def jBool? : Option JValue → Bool × Bool
  | none => (false, true)
  | some JValue.jnull => (false, true)
  | some (JValue.jbool b) => (b, true)
  | some _ => (false, false)

/-- The decode error `encoding/json` records for a mismatched field (it
keeps decoding the remaining fields and returns the first saved error; the
claims only inspect whether an error is present). -/
def mismatchErr (ok : Bool) : Option String :=
  if ok then none else some "json: cannot unmarshal value into Go struct field"

/-- parseResponse (src lines 188-224): decode the body into the anonymous
result struct — the `items` field re-dispatches onto the caller-supplied
destination `v` (src lines 226-232), modelled as the destination's own
unmarshal function `JValue → Option α` — then repackage the metadata
fields into a freshly built `Wrapper`, returned together with the decode
error.  A stream that is not one well-formed JSON document is `none`; a
document that is not an object (except null, which assigns nothing) is a
type mismatch that leaves the struct zero. -/
def parseResponse (α : Type) (doc : Option JValue) (v : JValue → Option α) :
    Wrapper × Option α × Option String :=
  match doc with
  | none => (zeroWrapper, none, some "unexpected end of JSON input")
  | some JValue.jnull => (zeroWrapper, none, none)
  | some (JValue.jobj fields) =>
    let items : Option α × Option String :=
      match jLookup fields "items" with
      | none => (none, none)
      | some jv =>
        match v jv with
        | some a => (some a, none)
        | none => (none, some "json: cannot unmarshal items into destination")
    let errorID := jInt? (jLookup fields "error_id")
    let errorName := jStr? (jLookup fields "error_name")
    let errorMessage := jStr? (jLookup fields "error_message")
    let page := jInt? (jLookup fields "page")
    let pageSize := jInt? (jLookup fields "page_size")
    let hasMore := jBool? (jLookup fields "has_more")
    let backoff := jInt? (jLookup fields "backoff")
    let quotaMax := jInt? (jLookup fields "quota_max")
    let quotaRemaining := jInt? (jLookup fields "quota_remaining")
    let total := jInt? (jLookup fields "total")
    let ty := jStr? (jLookup fields "type")
    let err : Option String :=
      items.2 <|> mismatchErr errorID.2 <|> mismatchErr errorName.2 <|>
        mismatchErr errorMessage.2 <|> mismatchErr page.2 <|> mismatchErr pageSize.2 <|>
        mismatchErr hasMore.2 <|> mismatchErr backoff.2 <|> mismatchErr quotaMax.2 <|>
        mismatchErr quotaRemaining.2 <|> mismatchErr total.2 <|> mismatchErr ty.2
    ({ error := { id := errorID.1, name := errorName.1, message := errorMessage.1 }
       page := page.1, pageSize := pageSize.1, hasMore := hasMore.1, backoff := backoff.1
       quotaMax := quotaMax.1, quotaRemaining := quotaRemaining.1, total := total.1
       type' := ty.1 }, items.1, err)
  | some _ => (zeroWrapper, none, some "json: cannot unmarshal value into Go struct")

/-- Whether a decoded envelope object decodes without any error: every
recognized metadata field is absent, null or of the declared type, and the
`items` payload (when present) is accepted by the destination. -/
def envelopeWellFormed (α : Type) (v : JValue → Option α)
    (fields : List (String × JValue)) : Bool :=
  (jInt? (jLookup fields "error_id")).2 && (jStr? (jLookup fields "error_name")).2 &&
    (jStr? (jLookup fields "error_message")).2 && (jInt? (jLookup fields "page")).2 &&
    (jInt? (jLookup fields "page_size")).2 && (jBool? (jLookup fields "has_more")).2 &&
    (jInt? (jLookup fields "backoff")).2 && (jInt? (jLookup fields "quota_max")).2 &&
    (jInt? (jLookup fields "quota_remaining")).2 && (jInt? (jLookup fields "total")).2 &&
    (jStr? (jLookup fields "type")).2 &&
    (match jLookup fields "items" with
     | none => true
     | some jv => (v jv).isSome)

example : fillPlaceholders PathQuestionAnswers ["1;2;3"] = "/questions/1;2;3/answers" := by decide

example : fillPlaceholders PathAnswerComments [] = PathAnswerComments := by decide

example : JoinIDs [1, 2, 3] = "1;2;3" := by decide

example : JoinIDs [] = "" := by decide

example : Params.values ⟨"stackoverflow", "", "", 0, 0, "", "", []⟩ = [("site", "stackoverflow")] := by decide

example : Values.encode [("site", "stackoverflow"), ("page", "2")] = "page=2&site=stackoverflow" := by decide

/-! Helper lemmas about the placeholder scan. -/

theorem idxOf?_lt {c : Char} : ∀ {l : List Char} {i : Nat}, idxOf? c l = some i → i < l.length := by
  intro l
  induction l with
  | nil => intro i h; simp [idxOf?] at h
  | cons x xs ih =>
    intro i h
    by_cases hx : x = c
    · simp only [idxOf?, if_pos hx] at h
      injection h with h
      subst h
      simp
    · simp only [idxOf?, if_neg hx, Option.map_eq_some'] at h
      obtain ⟨i', hi', rfl⟩ := h
      have := ih hi'
      simp only [List.length_cons]
      omega

theorem parseTemplateGo_congr : ∀ (f g : Nat) (t : List Char),
    t.length ≤ f → t.length ≤ g → parseTemplateGo f t = parseTemplateGo g t := by
  intro f
  induction f with
  | zero =>
    intro g t hf _
    have ht : t = [] := List.length_eq_zero.mp (Nat.le_zero.mp hf)
    subst ht
    cases g with
    | zero => rfl
    | succ g => simp [parseTemplateGo, idxOf?]
  | succ f ih =>
    intro g t hf hg
    cases g with
    | zero =>
      have ht : t = [] := List.length_eq_zero.mp (Nat.le_zero.mp hg)
      subst ht
      simp [parseTemplateGo, idxOf?]
    | succ g =>
      simp only [parseTemplateGo]
      cases h1 : idxOf? '{' t with
      | none => rfl
      | some i =>
        dsimp only
        cases h2 : idxOf? '}' (t.drop i) with
        | none => rfl
        | some j =>
          dsimp only
          have hi := idxOf?_lt h1
          have hlf : ((t.drop i).drop (j + 1)).length ≤ f := by
            simp only [List.length_drop]; omega
          have hlg : ((t.drop i).drop (j + 1)).length ≤ g := by
            simp only [List.length_drop]; omega
          rw [ih g _ hlf hlg]

theorem parseTemplate_eq (t : List Char) :
    parseTemplate t =
      match idxOf? '{' t with
      | none => ([], t)
      | some i =>
        match idxOf? '}' (t.drop i) with
        | none => ([], t)
        | some j =>
          let p := parseTemplate ((t.drop i).drop (j + 1))
          ((t.take i, (t.drop i).take (j + 1)) :: p.1, p.2) := by
  cases t with
  | nil => simp [parseTemplate, parseTemplateGo, idxOf?]
  | cons x xs =>
    show parseTemplateGo (xs.length + 1) (x :: xs) = _
    simp only [parseTemplateGo]
    cases h1 : idxOf? '{' (x :: xs) with
    | none => rfl
    | some i =>
      dsimp only
      cases h2 : idxOf? '}' ((x :: xs).drop i) with
      | none => rfl
      | some j =>
        dsimp only
        have hi := idxOf?_lt h1
        simp only [List.length_cons] at hi
        have hle : (((x :: xs).drop i).drop (j + 1)).length ≤ xs.length := by
          simp only [List.length_drop, List.length_cons]; omega
        rw [parseTemplateGo_congr xs.length (((x :: xs).drop i).drop (j + 1)).length _ hle le_rfl]
        rfl

theorem renderSubst_parse_go : ∀ (fuel : Nat) (t : List Char), t.length ≤ fuel →
    renderSubst (parseTemplateGo fuel t).1 (parseTemplateGo fuel t).2 [] = t := by
  intro fuel
  induction fuel with
  | zero => intro t _; rfl
  | succ fuel ih =>
    intro t h
    simp only [parseTemplateGo]
    cases h1 : idxOf? '{' t with
    | none => rfl
    | some i =>
      dsimp only
      cases h2 : idxOf? '}' (t.drop i) with
      | none => rfl
      | some j =>
        dsimp only
        have hi := idxOf?_lt h1
        have hle : ((t.drop i).drop (j + 1)).length ≤ fuel := by
          simp only [List.length_drop]; omega
        simp only [renderSubst]
        rw [ih _ hle, List.append_assoc, List.take_append_drop, List.take_append_drop]

theorem renderSubst_parse_nilargs (t : List Char) :
    renderSubst (parseTemplate t).1 (parseTemplate t).2 [] = t :=
  renderSubst_parse_go t.length t le_rfl

theorem fillLoop_buf : ∀ (args : List (List Char)) (b buf : List Char),
    fillLoop args b buf = buf ++ fillLoop args b [] := by
  intro args
  induction args with
  | nil => intro b buf; simp [fillLoop]
  | cons a rest ih =>
    intro b buf
    simp only [fillLoop]
    by_cases hb : b.length = 0
    · simp [hb]
    · simp only [if_neg hb]
      cases h1 : idxOf? '{' b with
      | none => simp
      | some i =>
        dsimp only
        cases h2 : idxOf? '}' (b.drop i) with
        | none => simp
        | some j =>
          dsimp only
          rw [ih ((b.drop i).drop (j + 1)) ((buf ++ b.take i) ++ a),
            ih ((b.drop i).drop (j + 1)) (([] ++ b.take i) ++ a)]
          simp [List.append_assoc]

theorem fill_renderSubst : ∀ (args : List (List Char)) (t : List Char),
    fillLoop args t [] = renderSubst (parseTemplate t).1 (parseTemplate t).2 args := by
  intro args
  induction args with
  | nil =>
    intro t
    rw [renderSubst_parse_nilargs t]
    simp [fillLoop]
  | cons a rest ih =>
    intro t
    rw [parseTemplate_eq t]
    simp only [fillLoop]
    by_cases hb : t.length = 0
    · have ht : t = [] := List.length_eq_zero.mp hb
      subst ht
      simp [idxOf?, renderSubst]
    · simp only [if_neg hb]
      cases h1 : idxOf? '{' t with
      | none => simp [renderSubst]
      | some i =>
        dsimp only
        cases h2 : idxOf? '}' (t.drop i) with
        | none => simp [renderSubst, List.take_append_drop]
        | some j =>
          dsimp only
          simp only [renderSubst]
          rw [fillLoop_buf, ih ((t.drop i).drop (j + 1))]
          simp [List.append_assoc]

theorem fillPlaceholders_toList (s : String) (args : List String) :
    (fillPlaceholders s args).toList =
      renderSubst (parseTemplate s.toList).1 (parseTemplate s.toList).2
        (args.map String.toList) := by
  unfold fillPlaceholders
  by_cases hs : s.length = 0
  · have hs' : s.toList = [] := List.length_eq_zero.mp hs
    rw [if_pos]
    · rw [hs']
      cases hargs : args.map String.toList with
      | nil => simp [parseTemplate, parseTemplateGo, renderSubst, hs']
      | cons m ms => simp [parseTemplate, parseTemplateGo, renderSubst, hs']
    · simp [hs]
  · by_cases ha : args.length = 0
    · have ha' : args = [] := List.length_eq_zero.mp ha
      subst ha'
      rw [if_pos]
      · simp only [List.map_nil]
        rw [renderSubst_parse_nilargs]
      · simp
    · rw [if_neg]
      · exact fill_renderSubst (args.map String.toList) s.toList
      · simp [hs, ha]

theorem renderSubst_take : ∀ (segs : List (List Char × List Char)) (tail : List Char)
    (args : List (List Char)),
    renderSubst segs tail (args.take segs.length) = renderSubst segs tail args := by
  intro segs
  induction segs with
  | nil => intro tail args; rfl
  | cons seg segs ih =>
    intro tail args
    obtain ⟨lit, span⟩ := seg
    cases args with
    | nil => simp [renderSubst]
    | cons a as => simp only [List.length_cons, List.take_succ_cons, renderSubst, ih]

theorem renderSubst_suffix : ∀ (segs : List (List Char × List Char)) (tail : List Char)
    (args : List (List Char)), ∃ u, renderSubst segs tail args = u ++ tail := by
  intro segs
  induction segs with
  | nil => intro tail args; exact ⟨[], rfl⟩
  | cons seg segs ih =>
    intro tail args
    obtain ⟨lit, span⟩ := seg
    cases args with
    | nil =>
      obtain ⟨u, hu⟩ := ih tail []
      exact ⟨lit ++ span ++ u, by simp [renderSubst, hu, List.append_assoc]⟩
    | cons a as =>
      obtain ⟨u, hu⟩ := ih tail as
      exact ⟨lit ++ a ++ u, by simp [renderSubst, hu, List.append_assoc]⟩

theorem fillPlaceholders_take (s : String) (args : List String) :
    fillPlaceholders s args = fillPlaceholders s (args.take (parseTemplate s.toList).1.length) := by
  apply String.toList_inj.mp
  rw [fillPlaceholders_toList, fillPlaceholders_toList, List.map_take, renderSubst_take]

/-- C1: for every path template, `parseTemplate` decomposes it into its
complete `\x7b...\x7d` placeholder spans (each with the literal text before
it) plus a remainder, and `fillPlaceholders` replaces the spans positionally
left-to-right: while arguments remain each span is replaced by the next
argument, once they run out the remaining spans appear verbatim brackets
included, all literal text is copied verbatim (`renderSubst`), and arguments
beyond the number of spans are ignored.  In particular
`/questions/{ids}/answers` with `["1;2;3"]` yields
`/questions/1;2;3/answers`, and `/answers/{ids}/comments` with no arguments
is returned unchanged. -/
theorem fillPlaceholders_positional :
    (∀ (s : String) (args : List String),
      (fillPlaceholders s args).toList =
        renderSubst (parseTemplate s.toList).1 (parseTemplate s.toList).2
          (args.map String.toList)) ∧
    (∀ (s : String) (args : List String),
      fillPlaceholders s args =
        fillPlaceholders s (args.take (parseTemplate s.toList).1.length)) ∧
    fillPlaceholders "/questions/{ids}/answers" ["1;2;3"] = "/questions/1;2;3/answers" ∧
    fillPlaceholders "/answers/{ids}/comments" [] = "/answers/{ids}/comments" :=
  ⟨fillPlaceholders_toList, fillPlaceholders_take, by decide, by decide⟩

/-- C10: when the template's remainder after the last complete placeholder
span holds an unmatched `\x7b` (one with no `\x7d` anywhere after it), the
scan stops there: the output is still the positional rendering, the whole
remainder — unmatched `\x7b` included — is copied verbatim as a suffix of
the output, and the arguments not consumed by the complete spans are
ignored. -/
theorem fillPlaceholders_unmatched (s : String) (args : List String)
    (_hargs : args ≠ []) (hbrace : '{' ∈ (parseTemplate s.toList).2) :
    (fillPlaceholders s args).toList =
        renderSubst (parseTemplate s.toList).1 (parseTemplate s.toList).2
          (args.map String.toList) ∧
    (parseTemplate s.toList).2 <:+ (fillPlaceholders s args).toList ∧
    '{' ∈ (fillPlaceholders s args).toList ∧
    fillPlaceholders s args = fillPlaceholders s (args.take (parseTemplate s.toList).1.length) := by
  have hsuf : (parseTemplate s.toList).2 <:+ (fillPlaceholders s args).toList := by
    obtain ⟨u, hu⟩ := renderSubst_suffix (parseTemplate s.toList).1 (parseTemplate s.toList).2
      (args.map String.toList)
    rw [fillPlaceholders_toList s args, hu]
    exact ⟨u, rfl⟩
  exact ⟨fillPlaceholders_toList s args, hsuf, hsuf.subset hbrace, fillPlaceholders_take s args⟩

theorem fillPlaceholders_unmatched_witness :
    (fillPlaceholders "/x/\x7ba" ["1"]).toList =
        renderSubst (parseTemplate "/x/\x7ba".toList).1 (parseTemplate "/x/\x7ba".toList).2
          (["1"].map String.toList) ∧
    (parseTemplate "/x/\x7ba".toList).2 <:+ (fillPlaceholders "/x/\x7ba" ["1"]).toList ∧
    '{' ∈ (fillPlaceholders "/x/\x7ba" ["1"]).toList ∧
    fillPlaceholders "/x/\x7ba" ["1"] =
      fillPlaceholders "/x/\x7ba" (["1"].take (parseTemplate "/x/\x7ba".toList).1.length) :=
  fillPlaceholders_unmatched "/x/\x7ba" ["1"] (by decide) (by decide)

/-! Helper lemmas about decimal rendering and JoinIDs. -/

theorem toDigitsCore_length_le (b : Nat) :
    ∀ (fuel n : Nat) (ds : List Char), ds.length ≤ (Nat.toDigitsCore b fuel n ds).length := by
  intro fuel
  induction fuel with
  | zero => intro n ds; exact le_rfl
  | succ fuel ih =>
    intro n ds
    show ds.length ≤ (if n / b = 0 then Nat.digitChar (n % b) :: ds
      else Nat.toDigitsCore b fuel (n / b) (Nat.digitChar (n % b) :: ds)).length
    by_cases h : n / b = 0
    · rw [if_pos h]; simp
    · rw [if_neg h]
      exact le_trans (by simp) (ih (n / b) (Nat.digitChar (n % b) :: ds))

theorem nat_repr_length_pos (n : Nat) : 0 < (Nat.repr n).length := by
  show 0 < (Nat.toDigits 10 n).asString.length
  show 0 < (Nat.toDigitsCore 10 (n + 1) n []).length
  show 0 < (if n / 10 = 0 then Nat.digitChar (n % 10) :: ([] : List Char)
    else Nat.toDigitsCore 10 n (n / 10) (Nat.digitChar (n % 10) :: [])).length
  by_cases h : n / 10 = 0
  · rw [if_pos h]; simp
  · rw [if_neg h]
    have := toDigitsCore_length_le 10 n (n / 10) [Nat.digitChar (n % 10)]
    simp at this
    omega

theorem int_toString_length_pos (i : Int) : 0 < (toString i).length := by
  cases i with
  | ofNat m => exact nat_repr_length_pos m
  | negSucc m =>
    show 0 < ("-" ++ toString (m + 1)).length
    rw [String.length_append]
    have h1 : ("-" : String).length = 1 := rfl
    omega

theorem joinLoop_acc : ∀ (ids : List Int) (buf : String), 0 < buf.length →
    joinLoop ids buf = buf ++ prefixJoin ids := by
  intro ids
  induction ids with
  | nil => intro buf _; simp [joinLoop, prefixJoin]
  | cons id rest ih =>
    intro buf h
    simp only [joinLoop, prefixJoin]
    rw [if_pos h]
    rw [ih ((buf ++ ";") ++ toString id)
      (by rw [String.length_append, String.length_append]; omega)]
    simp [String.append_assoc]

theorem joinIDsSpec_cons (id : Int) (rest : List Int) :
    joinIDsSpec (id :: rest) = toString id ++ prefixJoin rest := by
  induction rest generalizing id with
  | nil => simp [joinIDsSpec, prefixJoin]
  | cons id2 rest' ih =>
    simp only [joinIDsSpec, prefixJoin]
    rw [ih id2]
    simp [String.append_assoc]

theorem joinIDs_eq_spec (ids : List Int) : JoinIDs ids = joinIDsSpec ids := by
  cases ids with
  | nil => rfl
  | cons id rest =>
    show joinLoop (id :: rest) "" = _
    simp only [joinLoop]
    rw [if_neg (by simp), String.empty_append,
      joinLoop_acc rest (toString id) (int_toString_length_pos id), joinIDsSpec_cons]

/-- C6: JoinIDs returns the base-10 representations of the IDs in order,
separated by single `;` characters (`joinIDsSpec`); in particular
`JoinIDs [1,2,3] = "1;2;3"`, `JoinIDs [] = ""` and `JoinIDs [42] = "42"`. -/
theorem joinIDs_semicolon_separated :
    (∀ ids : List Int, JoinIDs ids = joinIDsSpec ids) ∧
    JoinIDs [1, 2, 3] = "1;2;3" ∧ JoinIDs [] = "" ∧ JoinIDs [42] = "42" :=
  ⟨joinIDs_eq_spec, by decide, rfl, by decide⟩

/-! Helper lemmas about the url.Values model. -/

theorem find?_filter_ne (k k' : String) (h : k ≠ k') : ∀ vals : Values,
    (vals.filter (fun q => !(q.1 == k'))).find? (fun q => q.1 == k) =
      vals.find? (fun q => q.1 == k) := by
  intro vals
  induction vals with
  | nil => rfl
  | cons a l ih =>
    by_cases ha : a.1 = k
    · have hf : (!(a.1 == k')) = true := by simp [ha, h]
      simp [List.filter_cons, hf, ha, h]
    · by_cases hf : a.1 = k'
      · have : (!(a.1 == k')) = false := by simp [hf]
        simp only [List.filter_cons, this, if_neg, Bool.false_eq_true, ite_false, ih]
        rw [List.find?_cons_of_neg _ (by simp [ha])]
      · have : (!(a.1 == k')) = true := by simp [hf]
        simp [List.filter_cons, this, ha, hf, ih]

theorem get?_set_same (vals : Values) (k v : String) :
    Values.get? (Values.set vals k v) k = some v := by
  unfold Values.set Values.get?
  rw [List.find?_append]
  have h1 : (vals.filter (fun q => !(q.1 == k))).find? (fun q => q.1 == k) = none := by
    rw [List.find?_eq_none]
    intro x hx hcontra
    rw [List.mem_filter] at hx
    simp [hcontra] at hx
  rw [h1]
  simp

theorem get?_set_other (vals : Values) (k' v k : String) (h : k ≠ k') :
    Values.get? (Values.set vals k' v) k = Values.get? vals k := by
  unfold Values.set Values.get?
  rw [List.find?_append]
  have hlast : List.find? (fun q => q.1 == k) [(k', v)] = none := by
    simp
    exact fun e => h e.symm
  rw [hlast, find?_filter_ne k k' h vals]
  simp

theorem get?_setIf (c : Prop) [Decidable c] (vals : Values) (k' v k : String) :
    Values.get? (if c then Values.set vals k' v else vals) k =
      if c ∧ k = k' then some v else Values.get? vals k := by
  by_cases hc : c
  · by_cases hk : k = k'
    · subst hk
      simp [hc, get?_set_same]
    · simp [hc, hk, get?_set_other vals k' v k hk]
  · simp [hc]

theorem get?_singleton (a b k : String) :
    Values.get? [(a, b)] k = if k = a then some b else none := by
  by_cases h : k = a
  · subst h
    simp [Values.get?]
  · have hne : (a == k) = false := by
      simp
      exact fun e => h e.symm
    simp [Values.get?, hne, h]

theorem values_get? (p : Params) (k : String) :
    Values.get? p.values k =
      if k = "site" then some p.site
      else if k = "sort" then (if p.sort ≠ "" then some p.sort else none)
      else if k = "order" then (if p.order ≠ "" then some p.order else none)
      else if k = "page" then (if p.page ≠ 0 then some (toString p.page) else none)
      else if k = "pagesize" then (if p.pageSize ≠ 0 then some (toString p.pageSize) else none)
      else if k = "filter" then (if p.filter ≠ "" then some p.filter else none)
      else if k = "tagged" then (if p.tagged ≠ "" then some p.tagged else none)
      else none := by
  show Values.get?
    (if p.tagged ≠ "" then
      Values.set
        (if p.filter ≠ "" then
          Values.set
            (if p.pageSize ≠ 0 then
              Values.set
                (if p.page ≠ 0 then
                  Values.set
                    (if p.order ≠ "" then
                      Values.set
                        (if p.sort ≠ "" then Values.set [("site", p.site)] "sort" p.sort
                          else [("site", p.site)])
                        "order" p.order
                    else if p.sort ≠ "" then Values.set [("site", p.site)] "sort" p.sort
                      else [("site", p.site)])
                    "page" (toString p.page)
                else _)
                "pagesize" (toString p.pageSize)
            else _)
            "filter" p.filter
        else _)
        "tagged" p.tagged
    else _) k = _
  rw [get?_setIf, get?_setIf, get?_setIf, get?_setIf, get?_setIf, get?_setIf, get?_singleton]
  by_cases h1 : k = "site"
  · subst h1; simp +decide
  · by_cases h2 : k = "sort"
    · subst h2; simp +decide
    · by_cases h3 : k = "order"
      · subst h3; simp +decide
      · by_cases h4 : k = "page"
        · subst h4; simp +decide
        · by_cases h5 : k = "pagesize"
          · subst h5; simp +decide
          · by_cases h6 : k = "filter"
            · subst h6; simp +decide
            · by_cases h7 : k = "tagged"
              · subst h7; simp +decide
              · simp [h1, h2, h3, h4, h5, h6, h7]

/-- C4: the serializer emits a pair only for fields with non-default values
(empty string, zero integer omitted), except `site` which is always emitted
(even empty); `page` and `pagesize` are base-10 formatted; no key outside
the recognized seven is ever emitted; consequently a parameter set with a
non-empty site and every other field at its zero value serializes to the
single key `site`. -/
theorem params_values_only_nondefault (p : Params) :
    Values.get? p.values "site" = some p.site ∧
    Values.get? p.values "sort" = (if p.sort ≠ "" then some p.sort else none) ∧
    Values.get? p.values "order" = (if p.order ≠ "" then some p.order else none) ∧
    Values.get? p.values "page" = (if p.page ≠ 0 then some (toString p.page) else none) ∧
    Values.get? p.values "pagesize" =
      (if p.pageSize ≠ 0 then some (toString p.pageSize) else none) ∧
    Values.get? p.values "filter" = (if p.filter ≠ "" then some p.filter else none) ∧
    Values.get? p.values "tagged" = (if p.tagged ≠ "" then some p.tagged else none) ∧
    (∀ k : String, Values.get? p.values k ≠ none →
      k ∈ (["site", "sort", "order", "page", "pagesize", "filter", "tagged"] : List String)) ∧
    (p.site ≠ "" → p.sort = "" → p.order = "" → p.page = 0 → p.pageSize = 0 →
      p.filter = "" → p.tagged = "" → p.values = [("site", p.site)]) := by
  refine ⟨?_, ?_, ?_, ?_, ?_, ?_, ?_, ?_, ?_⟩
  · simp +decide [values_get?]
  · simp +decide [values_get?]
  · simp +decide [values_get?]
  · simp +decide [values_get?]
  · simp +decide [values_get?]
  · simp +decide [values_get?]
  · simp +decide [values_get?]
  · intro k hne
    by_contra hmem
    simp only [List.mem_cons, List.not_mem_nil, or_false, not_or] at hmem
    obtain ⟨h1, h2, h3, h4, h5, h6, h7⟩ := hmem
    exact hne (by rw [values_get?]; simp [h1, h2, h3, h4, h5, h6, h7])
  · intro _ h2 h3 h4 h5 h6 h7
    simp [Params.values, h2, h3, h4, h5, h6, h7]

theorem params_values_only_nondefault_witness :
    Params.values ⟨"stackoverflow", "", "", 0, 0, "", "", []⟩ = [("site", "stackoverflow")] :=
  (params_values_only_nondefault ⟨"stackoverflow", "", "", 0, 0, "", "", []⟩).2.2.2.2.2.2.2.2
    (by decide) rfl rfl rfl rfl rfl rfl

/-! Helper lemmas about key ordering and the final query parameters. -/

theorem charListLeb_iff : ∀ as bs : List Char, charListLeb as bs = true ↔ as ≤ bs := by
  intro as
  induction as with
  | nil =>
    intro bs
    exact iff_of_true rfl List.nil_le
  | cons a as' ih =>
    intro bs
    cases bs with
    | nil =>
      apply iff_of_false
      · simp [charListLeb]
      · intro h
        rcases lt_or_eq_of_le h with h' | h'
        · exact List.Lex.not_nil_right _ _ h'
        · exact List.cons_ne_nil a as' h'
    | cons b bs' =>
      by_cases hab : a = b
      · subst hab
        rw [show charListLeb (a :: as') (a :: bs') = charListLeb as' bs' from if_pos rfl, ih bs']
        constructor
        · exact fun h => List.cons_le_cons a h
        · intro h
          rcases lt_or_eq_of_le h with h' | h'
          · exact le_of_lt (List.Lex.cons_iff.mp h')
          · injection h' with _ h''
            exact le_of_eq h''
      · simp only [charListLeb, if_neg hab, decide_eq_true_eq]
        constructor
        · intro h
          exact le_of_lt (List.Lex.rel h)
        · intro h
          rcases lt_or_eq_of_le h with h' | h'
          · cases h' with
            | cons h'' => exact absurd rfl hab
            | rel h'' => exact h''
          · injection h' with h'' _
            exact absurd h'' hab

theorem strLeb_iff (a b : String) : strLeb a b = true ↔ a ≤ b := by
  rw [strLeb, charListLeb_iff, String.le_iff_toList_le]

instance : IsTotal String (fun a b => strLeb a b = true) :=
  ⟨fun a b => by
    rcases le_total a b with h | h
    · exact Or.inl ((strLeb_iff a b).mpr h)
    · exact Or.inr ((strLeb_iff b a).mpr h)⟩

instance : IsTrans String (fun a b => strLeb a b = true) :=
  ⟨fun a b c hab hbc =>
    (strLeb_iff a c).mpr (le_trans ((strLeb_iff a b).mp hab) ((strLeb_iff b c).mp hbc))⟩

theorem encodeKeys_sorted (vals : Values) : List.Sorted (· ≤ ·) (Values.encodeKeys vals) :=
  (List.sorted_insertionSort (fun a b => strLeb a b = true) (vals.map Prod.fst)).imp
    (fun hab => (strLeb_iff _ _).mp hab)

theorem values_get?_token (p : Params) : Values.get? p.values "access_token" = none := by
  rw [values_get?]
  simp +decide

theorem values_get?_key (p : Params) : Values.get? p.values "key" = none := by
  rw [values_get?]
  simp +decide

theorem valsOf_get_token (c : Option Client) (p : Params) :
    Values.get? (Client.valsOf c p) "access_token" =
      (match c with
       | some cc => if cc.accessToken ≠ "" then some cc.accessToken else none
       | none => none) := by
  cases c with
  | none => simpa [Client.valsOf] using values_get?_token p
  | some cc =>
    simp only [Client.valsOf]
    by_cases hk : cc.key ≠ ""
    · rw [if_pos hk, get?_set_other _ _ _ _ (by decide)]
      by_cases ht : cc.accessToken ≠ ""
      · rw [if_pos ht, get?_set_same]
        simp [ht]
      · rw [if_neg ht, values_get?_token p]
        simp [ht]
    · rw [if_neg hk]
      by_cases ht : cc.accessToken ≠ ""
      · rw [if_pos ht, get?_set_same]
        simp [ht]
      · rw [if_neg ht, values_get?_token p]
        simp [ht]

theorem valsOf_get_key (c : Option Client) (p : Params) :
    Values.get? (Client.valsOf c p) "key" =
      (match c with
       | some cc => if cc.key ≠ "" then some cc.key else none
       | none => none) := by
  cases c with
  | none => simpa [Client.valsOf] using values_get?_key p
  | some cc =>
    simp only [Client.valsOf]
    by_cases hk : cc.key ≠ ""
    · rw [if_pos hk, get?_set_same]
      simp [hk]
    · rw [if_neg hk]
      by_cases ht : cc.accessToken ≠ ""
      · rw [if_pos ht, get?_set_other _ _ _ _ (by decide), values_get?_key p]
        simp [hk]
      · rw [if_neg ht, values_get?_key p]
        simp [hk]

/-- C5: the request URL is the root — the fixed constant
`https://api.stackexchange.com/2.1` whenever the identity provides no root —
concatenated with the placeholder-substituted path, `?`, and the encoded
query string; the encoding escapes every key and value and iterates the keys
in lexicographically sorted order; `access_token` and `key` are present in
the query parameters exactly when the identity carries non-empty values for
them. -/
theorem client_url_assembly (c : Option Client) (path : String) (p : Params) :
    Client.urlOf c path p =
      Client.rootOf c ++ fillPlaceholders path p.args ++ "?" ++
        Values.encode (Client.valsOf c p) ∧
    Client.rootOf c =
      (match c with
       | none => "https://api.stackexchange.com/2.1"
       | some cc => if cc.root = "" then "https://api.stackexchange.com/2.1" else cc.root) ∧
    Values.encode (Client.valsOf c p) =
      String.intercalate "&" ((Values.encodeKeys (Client.valsOf c p)).map
        (fun k => queryEscape k ++ "=" ++
          queryEscape ((Values.get? (Client.valsOf c p) k).getD ""))) ∧
    List.Sorted (· ≤ ·) (Values.encodeKeys (Client.valsOf c p)) ∧
    Values.get? (Client.valsOf c p) "access_token" =
      (match c with
       | some cc => if cc.accessToken ≠ "" then some cc.accessToken else none
       | none => none) ∧
    Values.get? (Client.valsOf c p) "key" =
      (match c with
       | some cc => if cc.key ≠ "" then some cc.key else none
       | none => none) := by
  refine ⟨rfl, ?_, rfl, encodeKeys_sorted _, valsOf_get_token c p, valsOf_get_key c p⟩
  cases c with
  | none => rfl
  | some cc =>
    by_cases h : cc.root = ""
    · simp [Client.rootOf, h, Root, Version]
    · simp [Client.rootOf, h]

/-- C7: building the request from identical inputs yields identical output:
the URL construction is a pure function of the client identity, the path
template and the parameter set, with no hidden state. -/
theorem request_build_deterministic (c c' : Option Client) (path path' : String)
    (p p' : Params) (hc : c = c') (hpath : path = path') (hp : p = p') :
    Client.Do c path p = Client.Do c' path' p' := by
  subst hc
  subst hpath
  subst hp
  rfl

theorem request_build_deterministic_witness :
    Client.Do none "/answers" ⟨"stackoverflow", "", "", 0, 0, "", "", []⟩ =
      Client.Do none "/answers" ⟨"stackoverflow", "", "", 0, 0, "", "", []⟩ :=
  request_build_deterministic none none "/answers" "/answers"
    ⟨"stackoverflow", "", "", 0, 0, "", "", []⟩ ⟨"stackoverflow", "", "", 0, 0, "", "", []⟩
    rfl rfl rfl

/-- C8: the request operation is total on an absent (nil) identity — the
package default client is nil — and then the transport is the default HTTP
client, the root is the fixed constant, and no `access_token` or `key`
parameter is appended. -/
theorem nil_client_defaults (path : String) (p : Params) :
    Do path p = Client.Do none path p ∧
    (Client.Do none path p).transport = Transport.defaultHTTP ∧
    Client.rootOf none = Root ∧
    Values.get? (Client.valsOf none p) "access_token" = none ∧
    Values.get? (Client.valsOf none p) "key" = none ∧
    Client.valsOf none p = p.values :=
  ⟨rfl, rfl, rfl, by simpa using valsOf_get_token none p,
    by simpa using valsOf_get_key none p, rfl⟩

/-- C9: the builder reads but never writes the caller's parameter set and
client identity: in the state-passing reading of Client.Do both come back
unchanged. -/
theorem request_build_readonly (c : Option Client) (path : String) (p : Params) :
    (Client.DoFrame c path p).2.1 = p ∧ (Client.DoFrame c path p).2.2 = c :=
  ⟨rfl, rfl⟩

/-- C2: the decode operation always returns an envelope struct paired with
the decode error, never an error alone: the result is a total pair, and on a
stream that is not a well-formed JSON document the error is set while the
returned envelope is still the (zero-valued) struct. -/
theorem parseResponse_envelope_total (α : Type) (v : JValue → Option α) (doc : Option JValue) :
    ∃ (w : Wrapper) (dst : Option α) (e : Option String),
      parseResponse α doc v = (w, dst, e) ∧
      (doc = none → e.isSome = true ∧ w = zeroWrapper) := by
  refine ⟨(parseResponse α doc v).1, (parseResponse α doc v).2.1,
    (parseResponse α doc v).2.2, rfl, ?_⟩
  intro h
  subst h
  exact ⟨rfl, rfl⟩

theorem parseResponse_envelope_total_witness :
    ∃ (w : Wrapper) (dst : Option Nat) (e : Option String),
      parseResponse Nat none (fun _ => none) = (w, dst, e) ∧
      ((none : Option JValue) = none → e.isSome = true ∧ w = zeroWrapper) :=
  parseResponse_envelope_total Nat (fun _ => none) none

/-- C3: decoding a well-formed envelope whose error fields are set yields a
result whose error descriptor exactly matches the JSON values, and the
decode operation itself returns no error: an application-level API error is
never raised as a decode error. -/
theorem parseResponse_api_error (α : Type) (v : JValue → Option α)
    (fields : List (String × JValue)) (i : Int) (nm msg : String)
    (h1 : jLookup fields "error_id" = some (JValue.jnum i))
    (h2 : jLookup fields "error_name" = some (JValue.jstr nm))
    (h3 : jLookup fields "error_message" = some (JValue.jstr msg))
    (hw : envelopeWellFormed α v fields = true) :
    (parseResponse α (some (JValue.jobj fields)) v).1.error = ⟨i, nm, msg⟩ ∧
    (parseResponse α (some (JValue.jobj fields)) v).2.2 = none := by
  simp only [envelopeWellFormed, Bool.and_eq_true] at hw
  obtain ⟨⟨⟨⟨⟨⟨⟨⟨⟨⟨⟨hw1, hw2⟩, hw3⟩, hw4⟩, hw5⟩, hw6⟩, hw7⟩, hw8⟩, hw9⟩, hw10⟩, hw11⟩, hw12⟩ := hw
  simp only [parseResponse]
  rw [h1, h2, h3]
  rcases hitems : jLookup fields "items" with _ | jv
  · constructor
    · rfl
    · rw [hw4, hw5, hw6, hw7, hw8, hw9, hw10, hw11]
      simp [mismatchErr, jInt?, jStr?]
  · have hw12' : (v jv).isSome = true := by rw [hitems] at hw12; exact hw12
    obtain ⟨aa, haa⟩ := Option.isSome_iff_exists.mp hw12'
    constructor
    · rfl
    · rw [hw4, hw5, hw6, hw7, hw8, hw9, hw10, hw11]
      simp [mismatchErr, jInt?, jStr?, haa]

theorem parseResponse_api_error_witness :
    (parseResponse Nat (some (JValue.jobj [("error_id", JValue.jnum 400),
        ("error_name", JValue.jstr "bad_parameter"),
        ("error_message", JValue.jstr "x")])) (fun _ => some 0)).1.error =
      ⟨400, "bad_parameter", "x"⟩ ∧
    (parseResponse Nat (some (JValue.jobj [("error_id", JValue.jnum 400),
        ("error_name", JValue.jstr "bad_parameter"),
        ("error_message", JValue.jstr "x")])) (fun _ => some 0)).2.2 = none :=
  parseResponse_api_error Nat (fun _ => some 0)
    [("error_id", JValue.jnum 400), ("error_name", JValue.jstr "bad_parameter"),
      ("error_message", JValue.jstr "x")]
    400 "bad_parameter" "x" rfl rfl rfl rfl
